import Mathlib

/-!
Verification of `scripts/get-reddit-leads.py`: a shallow embedding of the
lead-extraction pipeline (text cleaner, deindexer, lead locator, orchestrator)
together with theorems about its behaviour.
-/

set_option maxHeartbeats 1000000

/-- JSON-like values, the data model of the script: Python strings, ints,
booleans, `None`, dicts (modelled as association lists in insertion order,
keys assumed distinct) and lists. Floats do not occur in any claim and are
not modelled. -/
inductive Val where
  | str : String → Val
  | num : Int → Val
  | boolV : Bool → Val
  | nullV : Val
  | obj : List (String × Val) → Val
  | arr : List Val → Val

mutual

/-- Decidable equality for `Val` (written by hand: the nested inductive is not
covered by deriving in this toolchain). -/
def Val.decEq : (a b : Val) → Decidable (a = b)
  | Val.str x, Val.str y =>
    match String.decEq x y with
    | isTrue h => isTrue (by rw [h])
    | isFalse h => isFalse (fun hh => by cases hh; exact h rfl)
  | Val.str _, Val.num _ => isFalse (fun h => Val.noConfusion h)
  | Val.str _, Val.boolV _ => isFalse (fun h => Val.noConfusion h)
  | Val.str _, Val.nullV => isFalse (fun h => Val.noConfusion h)
  | Val.str _, Val.obj _ => isFalse (fun h => Val.noConfusion h)
  | Val.str _, Val.arr _ => isFalse (fun h => Val.noConfusion h)
  | Val.num x, Val.num y =>
    match Int.decEq x y with
    | isTrue h => isTrue (by rw [h])
    | isFalse h => isFalse (fun hh => by cases hh; exact h rfl)
  | Val.num _, Val.str _ => isFalse (fun h => Val.noConfusion h)
  | Val.num _, Val.boolV _ => isFalse (fun h => Val.noConfusion h)
  | Val.num _, Val.nullV => isFalse (fun h => Val.noConfusion h)
  | Val.num _, Val.obj _ => isFalse (fun h => Val.noConfusion h)
  | Val.num _, Val.arr _ => isFalse (fun h => Val.noConfusion h)
  | Val.boolV x, Val.boolV y =>
    match Bool.decEq x y with
    | isTrue h => isTrue (by rw [h])
    | isFalse h => isFalse (fun hh => by cases hh; exact h rfl)
  | Val.boolV _, Val.str _ => isFalse (fun h => Val.noConfusion h)
  | Val.boolV _, Val.num _ => isFalse (fun h => Val.noConfusion h)
  | Val.boolV _, Val.nullV => isFalse (fun h => Val.noConfusion h)
  | Val.boolV _, Val.obj _ => isFalse (fun h => Val.noConfusion h)
  | Val.boolV _, Val.arr _ => isFalse (fun h => Val.noConfusion h)
  | Val.nullV, Val.nullV => isTrue rfl
  | Val.nullV, Val.str _ => isFalse (fun h => Val.noConfusion h)
  | Val.nullV, Val.num _ => isFalse (fun h => Val.noConfusion h)
  | Val.nullV, Val.boolV _ => isFalse (fun h => Val.noConfusion h)
  | Val.nullV, Val.obj _ => isFalse (fun h => Val.noConfusion h)
  | Val.nullV, Val.arr _ => isFalse (fun h => Val.noConfusion h)
  | Val.obj xs, Val.obj ys =>
    match Val.decEqFields xs ys with
    | isTrue h => isTrue (by rw [h])
    | isFalse h => isFalse (fun hh => by cases hh; exact h rfl)
  | Val.obj _, Val.str _ => isFalse (fun h => Val.noConfusion h)
  | Val.obj _, Val.num _ => isFalse (fun h => Val.noConfusion h)
  | Val.obj _, Val.boolV _ => isFalse (fun h => Val.noConfusion h)
  | Val.obj _, Val.nullV => isFalse (fun h => Val.noConfusion h)
  | Val.obj _, Val.arr _ => isFalse (fun h => Val.noConfusion h)
  | Val.arr xs, Val.arr ys =>
    match Val.decEqElems xs ys with
    | isTrue h => isTrue (by rw [h])
    | isFalse h => isFalse (fun hh => by cases hh; exact h rfl)
  | Val.arr _, Val.str _ => isFalse (fun h => Val.noConfusion h)
  | Val.arr _, Val.num _ => isFalse (fun h => Val.noConfusion h)
  | Val.arr _, Val.boolV _ => isFalse (fun h => Val.noConfusion h)
  | Val.arr _, Val.nullV => isFalse (fun h => Val.noConfusion h)
  | Val.arr _, Val.obj _ => isFalse (fun h => Val.noConfusion h)

/-- Decidable equality for dict field lists. -/
def Val.decEqFields : (a b : List (String × Val)) → Decidable (a = b)
  | [], [] => isTrue rfl
  | [], _ :: _ => isFalse (fun h => List.noConfusion h)
  | _ :: _, [] => isFalse (fun h => List.noConfusion h)
  | (k, v) :: r, (k', v') :: r' =>
    match String.decEq k k' with
    | isFalse h1 => isFalse (fun h => by cases h; exact h1 rfl)
    | isTrue h1 =>
      match Val.decEq v v' with
      | isFalse h2 => isFalse (fun h => by cases h; exact h2 rfl)
      | isTrue h2 =>
        match Val.decEqFields r r' with
        | isFalse h3 => isFalse (fun h => by cases h; exact h3 rfl)
        | isTrue h3 => isTrue (by rw [h1, h2, h3])

/-- Decidable equality for array element lists. -/
def Val.decEqElems : (a b : List Val) → Decidable (a = b)
  | [], [] => isTrue rfl
  | [], _ :: _ => isFalse (fun h => List.noConfusion h)
  | _ :: _, [] => isFalse (fun h => List.noConfusion h)
  | v :: r, v' :: r' =>
    match Val.decEq v v' with
    | isFalse h2 => isFalse (fun h => by cases h; exact h2 rfl)
    | isTrue h2 =>
      match Val.decEqElems r r' with
      | isFalse h3 => isFalse (fun h => by cases h; exact h3 rfl)
      | isTrue h3 => isTrue (by rw [h2, h3])

end

instance : DecidableEq Val := Val.decEq

/-- Python truthiness (`if x:`) restricted to the modelled value types. -/
def truthy : Val → Bool
  | Val.str s => !s.isEmpty
  | Val.num n => n != 0
  | Val.boolV b => b
  | Val.nullV => false
  | Val.obj kvs => !kvs.isEmpty
  | Val.arr vs => !vs.isEmpty

/-- Python `str.isdigit()` for ASCII strings: nonempty and all decimal digits. -/
def isDigitString (s : String) : Bool :=
  !s.isEmpty && s.toList.all Char.isDigit

/-- Python `int(s)` on a decimal-digit string. -/
def digitsToNat (s : String) : Nat :=
  s.toList.foldl (fun a c => a * 10 + (c.toNat - 48)) 0

/-- Map a fallible function over a list, failing (like a propagating Python
exception) as soon as one element fails. -/
def optMapList (f : α → Option β) : List α → Option (List β)
  | [] => some []
  | a :: as =>
    match f a, optMapList f as with
    | some b, some bs => some (b :: bs)
    | _, _ => none

/-- Fuel-bounded embedding of `deref(val, data)` (source lines 54-64).
`none` models nontermination / Python's `RecursionError`: the true `deref`
is the limit over all fuels. A digit string whose value is in bounds of
`data` is replaced by the recursive dereference of the entry it indexes;
dicts and lists are mapped recursively; everything else is returned as is. -/
def derefF (data : List Val) : Nat → Val → Option Val
  | 0, _ => none
  | n + 1, v =>
    match v with
    | Val.str s =>
      if isDigitString s then
        if digitsToNat s < data.length then
          derefF data n (data.getD (digitsToNat s) Val.nullV)
        else some (Val.str s)
      else some (Val.str s)
    | Val.obj kvs =>
      (optMapList (fun kv => (derefF data n kv.2).map fun w => (kv.1, w)) kvs).map Val.obj
    | Val.arr vs =>
      (optMapList (derefF data n) vs).map Val.arr
    | v => some v

/-- `deref` converges on `v` against table `data`: some fuel suffices. -/
def Terminates (data : List Val) (v : Val) : Prop :=
  ∃ n r, derefF data n v = some r

/-- `RefIn v j`: the value `v` contains (at any nesting depth, inside dict
values and list elements) a digit string whose numeric value is `j`; such an
occurrence makes `deref` jump to table entry `j` when it is in bounds. -/
inductive RefIn : Val → Nat → Prop where
  | strRef : ∀ s, isDigitString s = true → RefIn (Val.str s) (digitsToNat s)
  | objRef : ∀ (k : String) (v : Val) (kvs : List (String × Val)) (j : Nat),
      (k, v) ∈ kvs → RefIn v j → RefIn (Val.obj kvs) j
  | arrRef : ∀ (v : Val) (vs : List Val) (j : Nat),
      v ∈ vs → RefIn v j → RefIn (Val.arr vs) j

/-- One step of the table's reference graph: processing entry `i` can jump to
entry `j` (both in bounds). Acyclicity of the table is well-foundedness of
this relation, the precondition under which `deref` is total. -/
def refStep (data : List Val) (j i : Nat) : Prop :=
  i < data.length ∧ j < data.length ∧ RefIn (data.getD i Val.nullV) j

/-! ### Text cleaner (`clean_html_content`, source lines 18-52)

Each `re.sub(pattern, repl, content)` call is embedded as a matcher that, at a
given position of the original text, reports the length of the (deterministic)
match there, plus a driver that performs Python's left-to-right,
non-overlapping global substitution.  Matchers receive the character just
before the current position so that word boundaries are judged against the
original string, exactly as `re.sub` does. -/

/-- Python regex `\w` (ASCII range, which covers all inputs in the claims). -/
def isWordChar (c : Char) : Bool := c.isAlphanum || c == '_'

/-- Python regex `\s` (ASCII whitespace). -/
def isSpaceChar (c : Char) : Bool :=
  c == ' ' || c == '\t' || c == '\n' || c == '\r' || c == '\x0b' || c == '\x0c'

/-- Length of the maximal run of characters satisfying `p`. -/
def countWhile (p : Char → Bool) : List Char → Nat
  | [] => 0
  | c :: cs => if p c then countWhile p cs + 1 else 0

/-- Distance to the end of the earliest `--` (inclusive), not crossing a
newline: the `.*?--` tail of the comment pattern. -/
def dashClose : List Char → Option Nat
  | '-' :: '-' :: _ => some 2
  | c :: cs => if c == '\n' then none else (dashClose cs).map (· + 1)
  | [] => none

/-- Matcher for `!--.*?--` (non-greedy). -/
def matchComment (_ : Option Char) (s : List Char) : Option Nat :=
  if ['!', '-', '-'].isPrefixOf s then (dashClose (s.drop 3)).map (· + 3) else none

/-- Distance to the first `>` (inclusive): the `[^>]*>` tail of a tag. -/
def tagClose : List Char → Option Nat
  | '>' :: _ => some 1
  | _ :: cs => (tagClose cs).map (· + 1)
  | [] => none

/-- Matcher for `<[^>]*>`. -/
def matchTag (_ : Option Char) (s : List Char) : Option Nat :=
  match s with
  | '<' :: rest => (tagClose rest).map (· + 1)
  | _ => none

/-- Matcher for `lit` followed by `\s*\w+` (the `div class=`/`span class=`
patterns; both quantifiers are deterministic here since `\s` and `\w` are
disjoint). -/
def matchLitSpacesWord (lit : List Char) (_ : Option Char) (s : List Char) : Option Nat :=
  if lit.isPrefixOf s then
    let rest := s.drop lit.length
    let ns := countWhile isSpaceChar rest
    let nw := countWhile isWordChar (rest.drop ns)
    if nw > 0 then some (lit.length + ns + nw) else none
  else none

/-- Matcher for `a href=\s*[^\s>]+`. -/
def matchAHref (_ : Option Char) (s : List Char) : Option Nat :=
  if "a href=".toList.isPrefixOf s then
    let rest := s.drop 7
    let ns := countWhile isSpaceChar rest
    let nw := countWhile (fun c => !isSpaceChar c && c != '>') (rest.drop ns)
    if nw > 0 then some (7 + ns + nw) else none
  else none

/-- Matcher for a plain literal pattern. -/
def matchLit (lit : List Char) (_ : Option Char) (s : List Char) : Option Nat :=
  if lit.isPrefixOf s then some lit.length else none

/-- The literal-plus-right-boundary part of a `\b<word>\b` match. -/
def matchWordTokAfter (w s : List Char) : Option Nat :=
  if w.isPrefixOf s then
    match (s.drop w.length).head? with
    | some c => if isWordChar c then none else some w.length
    | none => some w.length
  else none

/-- Matcher for `\b<word>\b` (the standalone `p`, `md`, `br` remnants): the
literal must be preceded and followed by a non-word character or the string
boundary.  `prev` is the character of the original text just before this
position. -/
def matchWordTok (w : List Char) (prev : Option Char) (s : List Char) : Option Nat :=
  match prev with
  | some c => if isWordChar c then none else matchWordTokAfter w s
  | none => matchWordTokAfter w s

/-- Matcher for `&[a-zA-Z0-9#]+;`. -/
def matchEntity (_ : Option Char) (s : List Char) : Option Nat :=
  match s with
  | '&' :: rest =>
    let n := countWhile (fun c => c.isAlphanum || c == '#') rest
    if n > 0 then
      match (rest.drop n).head? with
      | some ';' => some (n + 2)
      | _ => none
    else none
  | _ => none

/-- Matcher for `#\d+;`. -/
def matchHashNum (_ : Option Char) (s : List Char) : Option Nat :=
  match s with
  | '#' :: rest =>
    let n := countWhile Char.isDigit rest
    if n > 0 then
      match (rest.drop n).head? with
      | some ';' => some (n + 2)
      | _ => none
    else none
  | _ => none

/-- Matcher for `\s+`. -/
def matchSpaces (_ : Option Char) (s : List Char) : Option Nat :=
  let n := countWhile isSpaceChar s
  if n > 0 then some n else none

/-- Left-to-right non-overlapping global substitution, as `re.sub` performs
it: at each position of the original text try the matcher; on a match emit
the replacement and resume after the matched span, otherwise keep the
character.  Matching always looks at the original text (`prev` is the
original preceding character).  One unit of fuel is spent per position, so
the input's length is always enough fuel. -/
def runSub (m : Option Char → List Char → Option Nat) (repl : List Char) :
    Nat → Option Char → List Char → List Char
  | 0, _, s => s
  | _ + 1, _, [] => []
  | fuel + 1, prev, c :: cs =>
    match m prev (c :: cs) with
    | some (n + 1) =>
      repl ++ runSub m repl fuel (((c :: cs).take (n + 1)).getLast?) ((c :: cs).drop (n + 1))
    | _ => c :: runSub m repl fuel (some c) cs

/-- One whole `re.sub(pattern, repl, s)` pass. -/
def applySub (m : Option Char → List Char → Option Nat) (repl : List Char)
    (s : List Char) : List Char :=
  runSub m repl s.length none s

/-- Python `str.strip()` (ASCII whitespace). -/
def stripChars (s : List Char) : List Char :=
  ((s.dropWhile isSpaceChar).reverse.dropWhile isSpaceChar).reverse

/-- Embedding of `clean_html_content(content)` (source lines 18-52): the
fixed sequence of substitutions, in source order, followed by whitespace
collapsing and stripping.  The `if not content` guard maps the empty string
to itself (the `None` input case is outside the modelled type). -/
def clean_html_content (content : String) : String :=
  if content.isEmpty then "" else
  let l := content.toList
  let l := applySub matchComment [] l
  let l := applySub matchTag [] l
  let l := applySub (matchLitSpacesWord "div class=".toList) [] l
  let l := applySub (matchLitSpacesWord "span class=".toList) [] l
  let l := applySub matchAHref [] l
  let l := applySub (matchLit "/div".toList) [] l
  let l := applySub (matchLit "/span".toList) [] l
  let l := applySub (matchLit "/a".toList) [] l
  let l := applySub (matchLit "/p".toList) [] l
  let l := applySub (matchWordTok ['p']) [] l
  let l := applySub (matchWordTok ['m', 'd']) [] l
  let l := applySub (matchWordTok ['b', 'r']) [] l
  let l := applySub matchEntity [' '] l
  let l := applySub matchHashNum [] l
  let l := applySub (matchLit "submitted by".toList) [] l
  let l := applySub (matchLit "[link]".toList) [] l
  let l := applySub (matchLit "[comments]".toList) [] l
  let l := applySub matchSpaces [' '] l
  (stripChars l).asString

/-! ### Lead locator (source lines 66-78 and 101-153)

A lead is a Python dict, modelled as an association list in insertion order.
Per-row processing can raise: a result `(ls, true)` means the walk appended
the leads `ls` to the global accumulator and then raised (the row's exception
is caught by the orchestrator and the next row is processed — but the leads
already appended stay, as in the source, where Branch B appends directly to
`all_leads`).  `(ls, false)` is a normal completion. -/

/-- A lead record: a Python dict in insertion order. -/
abbrev Lead := List (String × Val)

/-- Python `key in dict`. -/
def hasKey (kvs : List (String × Val)) (k : String) : Bool :=
  (List.lookup k kvs).isSome

/-- Python `d[k] = v` on a dict: overwrite in place if the key exists
(keeping its position), else append. -/
def setKey : List (String × Val) → String → Val → List (String × Val)
  | [], k, v => [(k, v)]
  | (k', v') :: rest, k, v =>
    if k' == k then (k, v) :: rest else (k', v') :: setKey rest k v

/-- Contiguous-substring test on character lists. -/
def listIsInfix (needle : List Char) : List Char → Bool
  | [] => needle.isEmpty
  | c :: t => needle.isPrefixOf (c :: t) || listIsInfix needle t

/-- Python `needle in v` for the value types on which it does not raise:
dict key containment, string substring containment, list membership.
`none` models the `TypeError` raised on ints, bools and `None`. -/
def pyContains (needle : String) : Val → Option Bool
  | Val.obj kvs => some (hasKey kvs needle)
  | Val.str s => some (listIsInfix needle.toList s.toList)
  | Val.arr vs => some (vs.contains (Val.str needle))
  | _ => none

/-- Python `len(v)` for sized values; `none` models the `TypeError` on
numbers, bools and `None`. -/
def pyLen : Val → Option Nat
  | Val.str s => some s.length
  | Val.obj kvs => some kvs.length
  | Val.arr vs => some vs.length
  | _ => none

/-- Python iteration `for x in v`: list elements, dict keys, string
characters; `none` models the `TypeError` on non-iterables. -/
def pyIterate : Val → Option (List Val)
  | Val.str s => some (s.toList.map fun c => Val.str c.toString)
  | Val.obj kvs => some (kvs.map fun kv => Val.str kv.1)
  | Val.arr vs => some vs
  | _ => none

/-- Run an accumulating, abortable step over a list: leads gathered before a
raise are kept (they were already appended to the global accumulator in the
source) and the raise stops the remaining iterations. -/
def accumList (f : α → List Lead × Bool) : List α → List Lead × Bool
  | [] => ([], false)
  | a :: as =>
    match f a with
    | (ls, true) => (ls, true)
    | (ls, false) =>
      match accumList f as with
      | (ls', r) => (ls ++ ls', r)

/-- Attach provenance: `lead['foundAt'] = started_at; lead['executionId'] =
exec_id` (overwriting same-named fields). -/
def attachProvenance (startedAt : String) (execId : Val) (l : Lead) : Lead :=
  setKey (setKey l "foundAt" (Val.str startedAt)) "executionId" execId

/-- Branch B, innermost step (source lines 135-141): an item that is a dict
with a `json` field whose value contains both `title` and `link` becomes a
lead with provenance attached.  The containment test raises on
non-iterable `json` values, and the provenance assignment raises when the
`json` value is not a dict. -/
def walkItem (startedAt : String) (execId : Val) (item : Val) : List Lead × Bool :=
  match item with
  | Val.obj ikvs =>
    match List.lookup "json" ikvs with
    | some leadData =>
      match pyContains "title" leadData with
      | none => ([], true)
      | some false => ([], false)
      | some true =>
        match pyContains "link" leadData with
        | none => ([], true)
        | some false => ([], false)
        | some true =>
          match leadData with
          | Val.obj lkvs => ([attachProvenance startedAt execId lkvs], false)
          | _ => ([], true)
    | none => ([], false)
  | _ => ([], false)

/-- Branch B: one entry of `data.main` (source lines 133-141); only list
entries are scanned. -/
def walkItemList (startedAt : String) (execId : Val) (v : Val) : List Lead × Bool :=
  match v with
  | Val.arr items => accumList (walkItem startedAt execId) items
  | _ => ([], false)

/-- Branch B: the `main_data` value (source lines 131-141): the truthiness
and `len` guards, then the scan of the nested entries.  `len` raises on
truthy numbers and `True`. -/
def walkMainData (startedAt : String) (execId : Val) (mainData : Val) : List Lead × Bool :=
  if truthy mainData then
    match pyLen mainData with
    | none => ([], true)
    | some n =>
      if n > 0 then
        match pyIterate mainData with
        | none => ([], true)
        | some elems => accumList (walkItemList startedAt execId) elems
      else ([], false)
  else ([], false)

/-- Branch B: one run object (source lines 129-131): a dict with a `data`
field; `run['data'].get('main', [[]])` raises when `run['data']` is not a
dict, and defaults to `[[]]` when `main` is absent. -/
def walkRun (startedAt : String) (execId : Val) (run : Val) : List Lead × Bool :=
  match run with
  | Val.obj rkvs =>
    match List.lookup "data" rkvs with
    | some d =>
      match d with
      | Val.obj dkvs =>
        walkMainData startedAt execId ((List.lookup "main" dkvs).getD (Val.arr [Val.arr []]))
      | _ => ([], true)
    | none => ([], false)
  | _ => ([], false)

/-- Branch B: one node's run list (source lines 128-129); only list values
are scanned. -/
def walkNode (startedAt : String) (execId : Val) (nodeData : Val) : List Lead × Bool :=
  match nodeData with
  | Val.arr runs => accumList (walkRun startedAt execId) runs
  | _ => ([], false)

/-- Branch B: `for node_name, node_data in run_data.items()` (source line
127); `.items()` raises on a non-dict. -/
def walkRunData (startedAt : String) (execId : Val) (runData : Val) : List Lead × Bool :=
  match runData with
  | Val.obj entries => accumList (fun kv => walkNode startedAt execId kv.2) entries
  | _ => ([], true)

/-- Branch B entry point (source lines 122-127): the `resultData` value must
be a dict containing `runData` for the walk to start; otherwise the branch
contributes nothing and does not raise. -/
def runResultData (startedAt : String) (execId : Val) (result : Val) : List Lead × Bool :=
  match result with
  | Val.obj rkvs =>
    match List.lookup "runData" rkvs with
    | some rd => walkRunData startedAt execId rd
    | none => ([], false)
  | _ => ([], false)

/-- Iteration of `extract_leads_from_execution` over the table's elements,
carrying the full table for dereferencing. A `none` result models the
exception (recursion exhaustion) propagating out of the function, discarding
its local `leads` list. -/
def extractGo (fuel : Nat) (data : List Val) : List Val → Option (List Lead)
  | [] => some []
  | item :: rest =>
    match item with
    | Val.obj kvs =>
      if hasKey kvs "title" && hasKey kvs "subreddit" && hasKey kvs "link" then
        match derefF data fuel (Val.obj kvs) with
        | some (Val.obj lkvs) =>
          match extractGo fuel data rest with
          | some ls => some (lkvs :: ls)
          | none => none
        | _ => none
      else extractGo fuel data rest
    | _ => extractGo fuel data rest

/-- Embedding of `extract_leads_from_execution(data)` (source lines 66-78):
every dict element carrying `title`, `subreddit` and `link` is dereferenced
against the whole array and collected.  (On success `derefF` maps a dict to
a dict, so the non-dict arm of the inner match is unreachable.) -/
def extract_leads_from_execution (fuel : Nat) (data : List Val) : Option (List Lead) :=
  extractGo fuel data data

/-- Branch A (source lines 143-149): run the indexed-array extraction when
`data_array` is truthy and a list, and attach provenance to each resulting
lead.  An exception inside the extraction aborts the row with no Branch A
leads appended (the source builds Branch A's list locally before appending). -/
def runBranchA (fuel : Nat) (dataArray : Val) (startedAt : String) (execId : Val) :
    List Lead × Bool :=
  if truthy dataArray then
    match dataArray with
    | Val.arr vs =>
      match extract_leads_from_execution fuel vs with
      | some ls => (ls.map (attachProvenance startedAt execId), false)
      | none => ([], true)
    | _ => ([], false)
  else ([], false)

/-- Embedding of the per-payload shape dispatch (source lines 115-149): a
top-level list, or a dict's `data` field, feeds Branch A; `elif` a dict
without `data` but with `resultData` feeds Branch B.  The two branches are
mutually exclusive in the source (`if 'data' in exec_data: ... elif
'resultData' in exec_data: ...`, and `data_array` stays `None` on the
Branch B path). -/
def processPayload (fuel : Nat) (execData : Val) (startedAt : String) (execId : Val) :
    List Lead × Bool :=
  match execData with
  | Val.arr vs => runBranchA fuel (Val.arr vs) startedAt execId
  | Val.obj kvs =>
    match List.lookup "data" kvs with
    | some da => runBranchA fuel da startedAt execId
    | none =>
      match List.lookup "resultData" kvs with
      | some result => runResultData startedAt execId result
      | none => ([], false)
  | _ => ([], false)

/-! ### Pipeline orchestrator (`get_leads`, source lines 80-200) -/

/-- One row of the join query: execution id, `startedAt` timestamp, and the
payload after the decompress/decode/parse chain of lines 106-113.  `none`
models that chain raising (undecodable bytes or malformed JSON) — which
happens before any lead of the row is appended. -/
structure Row where
  execId : Val
  startedAt : String
  payload : Option Val
deriving DecidableEq

/-- Per-row processing inside the orchestrator's inner `try` (source lines
104-153): parse failure contributes nothing; otherwise the payload dispatch
runs.  The Boolean reports whether the row raised (and was skipped via the
`except ... continue`). -/
def processRow (fuel : Nat) (row : Row) : List Lead × Bool :=
  match row.payload with
  | none => ([], true)
  | some v => processPayload fuel v row.startedAt row.execId

/-- The global `all_leads` accumulator after the row loop: each row
contributes the leads it appended before completing or raising. -/
def allLeads (fuel : Nat) : List Row → List Lead
  | [] => []
  | r :: rs => (processRow fuel r).1 ++ allLeads fuel rs

/-- `lead.get('link', '')` (source line 164). -/
def linkOf (l : Lead) : Val :=
  (List.lookup "link" l).getD (Val.str "")

/-- The dedup loop of source lines 160-167 with its `seen_links` set:
a lead is kept iff its link is truthy and not seen before; kept links are
added to the set. -/
def dedupGo (seen : List Val) : List Lead → List Lead
  | [] => []
  | lead :: rest =>
    if truthy (linkOf lead) && !seen.contains (linkOf lead) then
      lead :: dedupGo (linkOf lead :: seen) rest
    else
      dedupGo seen rest

/-- Deduplication by link URL, first occurrence kept, falsy links dropped
(source lines 160-167). -/
def dedupLeads (l : List Lead) : List Lead := dedupGo [] l

/-- The sort key `x.get('foundAt', '')` (source line 170).  In the pipeline
every lead's `foundAt` was overwritten with the row's timestamp string, so
the key is always a string; a non-string value (which Python's comparison
would reject at sort time) is read as the missing-key default here. -/
def foundAtKey (x : Lead) : String :=
  match List.lookup "foundAt" x with
  | some (Val.str s) => s
  | _ => ""

/-- Lexicographic comparison of character lists by code point — Python's
string `<=`. -/
def charsLe : List Char → List Char → Bool
  | [], _ => true
  | _ :: _, [] => false
  | a :: as, b :: bs =>
    if a.toNat < b.toNat then true
    else if b.toNat < a.toNat then false
    else charsLe as bs

/-- Python string `<=` (code-point lexicographic). -/
def strLe (a b : String) : Bool := charsLe a.toList b.toList

/-- The sort's ordering: `a` may precede `b` in the descending-by-`foundAt`
order, i.e. `b`'s key is at most `a`'s. -/
def leadBefore (a b : Lead) : Bool := strLe (foundAtKey b) (foundAtKey a)

instance leadOrdDec : DecidableRel (fun a b : Lead => leadBefore a b = true) :=
  fun a b => inferInstanceAs (Decidable (leadBefore a b = true))

/-- `unique_leads.sort(key=..., reverse=True)` (source line 170): a stable
descending sort by the `foundAt` string; insertion sort is stable and so
matches Python's sort on every input. -/
def sortLeads (l : List Lead) : List Lead :=
  List.insertionSort (fun a b => leadBefore a b = true) l

/-- Read a field expected to hold a string, with `""` for a missing key
(`lead.get(k, '')`).  A non-string value here would make the source raise an
uncaught `TypeError` on the subsequent string method (killing the process
with no output, a case no claim touches); the embedding reads it as the
default instead. -/
def strField (l : Lead) (k : String) : String :=
  match List.lookup k l with
  | some (Val.str s) => s
  | _ => ""

/-- The fixed-shape record emitted for the frontend (source lines 179-192). -/
structure NormLead where
  id : Val
  title : Val
  subreddit : String
  author : String
  link : Val
  content : String
  priority : Val
  score : Val
  keywords : Val
  location : Val
  foundAt : Val
  pubDate : Val
deriving DecidableEq

/-- Normalization of one lead (source lines 179-192): defaults for missing
fields, `r/` and `u/` substring removal, content cleaned and truncated to
300 characters (empty if the `content` field is falsy or absent). -/
def normalizeLead (l : Lead) : NormLead where
  id := (List.lookup "executionId" l).getD (Val.str "")
  title := (List.lookup "title" l).getD (Val.str "Untitled")
  subreddit := (strField l "subreddit").replace "r/" ""
  author := (strField l "author").replace "u/" ""
  link := (List.lookup "link" l).getD (Val.str "")
  content :=
    match List.lookup "content" l with
    | some v => if truthy v then (clean_html_content (strField l "content")).take 300 else ""
    | none => ""
  priority := (List.lookup "priority" l).getD (Val.str "Medium")
  score := (List.lookup "score" l).getD (Val.num 0)
  keywords :=
    match List.lookup "highKeywords" l with
    | some v => v
    | none => (List.lookup "keywords" l).getD (Val.str "")
  location := (List.lookup "location" l).getD (Val.str "")
  foundAt := (List.lookup "foundAt" l).getD (Val.str "")
  pubDate := (List.lookup "pubDate" l).getD (Val.str "")

/-- The result envelope: either the error dict `{'error': msg, 'leads': [],
'total': 0}` or the success dict `{'leads': ..., 'total': ..., 'limit': ...,
'offset': ...}`. -/
inductive Envelope where
  | err : String → List NormLead → Nat → Envelope
  | ok : List NormLead → Nat → Nat → Nat → Envelope
deriving DecidableEq

/-- The `leads` field of an envelope. -/
def envLeads : Envelope → List NormLead
  | Envelope.err _ ls _ => ls
  | Envelope.ok ls _ _ _ => ls

/-- The `total` field of an envelope. -/
def envTotal : Envelope → Nat
  | Envelope.err _ _ t => t
  | Envelope.ok _ t _ _ => t

/-- Source lines 172-200: `total` is the size of the deduplicated collection
before pagination, the slice `[offset, offset+limit)` of the sorted
collection is normalized, and the success envelope is assembled.
`limit`/`offset` are the script's CLI integers; the claims only concern
non-negative values, which `Nat` encodes (Python slice semantics for
negative indices are outside the model). -/
def finishEnvelope (uniqueSorted : List Lead) (limitN offsetN : Nat) : Envelope :=
  Envelope.ok (((uniqueSorted.drop offsetN).take limitN).map normalizeLead)
    uniqueSorted.length limitN offsetN

/-- The behaviour of the external store in one invocation: whether
`sqlite3.connect` (plus cursor creation) raises, and whether the
execute/fetchall of the fixed query raises or returns rows.  The query's
filtering (workflow id, success status, `startedAt` descending, `LIMIT 200`)
happens inside the opaque store and is part of this oracle. -/
structure StoreRun where
  connectRes : Except String Unit
  queryRes : Except String (List Row)

/-- Embedding of `get_leads(limit, offset)` (source lines 80-200), extended
with the orchestrator's connection trace: the second and third components
count how many store connections the call opened and closed.  A `connect`
failure is caught by the outer `except` before any connection exists; a
query failure is caught after the connection was opened, and the source
returns the error envelope without reaching `conn.close()` (line 155), so
the opened connection is not closed on that path. -/
def getLeadsTraced (db : StoreRun) (fuel limitN offsetN : Nat) : Envelope × Nat × Nat :=
  match db.connectRes with
  | Except.error m => (Envelope.err m [] 0, 0, 0)
  | Except.ok _ =>
    match db.queryRes with
    | Except.error m => (Envelope.err m [] 0, 1, 0)
    | Except.ok rows =>
      (finishEnvelope (sortLeads (dedupLeads (allLeads fuel rows))) limitN offsetN, 1, 1)

/-- The value returned by `get_leads`. -/
def get_leads (db : StoreRun) (fuel limitN offsetN : Nat) : Envelope :=
  (getLeadsTraced db fuel limitN offsetN).1

/-- Branch B viewed as an independent shape-matcher on the whole payload
(the spec's reading): the run-data extraction applied to the payload's
`resultData` field whenever that field exists, regardless of `data`. -/
def branchBLeads (execData : Val) (startedAt : String) (execId : Val) : List Lead × Bool :=
  match execData with
  | Val.obj kvs =>
    match List.lookup "resultData" kvs with
    | some result => runResultData startedAt execId result
    | none => ([], false)
  | _ => ([], false)

/-! ### Concrete example values used by counterexamples and witnesses -/

/-- An indexed-array lead item: `title`, `subreddit` and `link` present. -/
def exItemA : Val :=
  Val.obj [("title", Val.str "TA"), ("subreddit", Val.str "SA"), ("link", Val.str "LA")]

/-- A well-formed Branch B run object holding one lead under `data.main`. -/
def exRunGood : Val :=
  Val.obj [("data", Val.obj [("main", Val.arr [Val.arr
    [Val.obj [("json", Val.obj [("title", Val.str "TB"), ("link", Val.str "LB")])]]])])]

/-- A payload satisfying both shape conditions at once: a `data` field
holding an array of leads and a `resultData.runData` mapping holding another
lead. -/
def exPayloadBoth : Val :=
  Val.obj [("data", Val.arr [exItemA]),
    ("resultData", Val.obj [("runData", Val.obj [("Node", Val.arr [exRunGood])])])]

/-- The Branch A lead of `exPayloadBoth` with provenance attached. -/
def exLeadA : Lead :=
  [("title", Val.str "TA"), ("subreddit", Val.str "SA"), ("link", Val.str "LA"),
    ("foundAt", Val.str "2024-01-01"), ("executionId", Val.str "e1")]

/-- The Branch B lead of `exPayloadBoth` with provenance attached. -/
def exLeadB : Lead :=
  [("title", Val.str "TB"), ("link", Val.str "LB"),
    ("foundAt", Val.str "2024-01-01"), ("executionId", Val.str "e1")]

/-- A run object whose `data` field is not a dict: walking it raises at
`run['data'].get('main', [[]])`. -/
def exRunBad : Val := Val.obj [("data", Val.num 5)]

/-- A payload whose run-data walk appends one good lead (node `NodeA`) and
then raises on node `NodeB`. -/
def exPayloadPartial : Val :=
  Val.obj [("resultData", Val.obj [("runData",
    Val.obj [("NodeA", Val.arr [exRunGood]), ("NodeB", Val.arr [exRunBad])])])]

/-- A row carrying `exPayloadPartial`. -/
def exRowPartial : Row := ⟨Val.str "e9", "2024-05-05", some exPayloadPartial⟩

/-- The lead `exRowPartial` appends before its walk raises. -/
def exLeadPartial : Lead :=
  [("title", Val.str "TB"), ("link", Val.str "LB"),
    ("foundAt", Val.str "2024-05-05"), ("executionId", Val.str "e9")]

/-- Two leads sharing the link `u` with different `foundAt`, and one lead
with no link at all. -/
def exDupFirst : Lead := [("link", Val.str "u"), ("foundAt", Val.str "2024-01-01")]

/-- The later duplicate of `exDupFirst`. -/
def exDupLater : Lead := [("link", Val.str "u"), ("foundAt", Val.str "2024-02-02")]

/-- A lead with no `link` field. -/
def exNoLink : Lead := [("title", Val.str "t")]

/-- Lead with `foundAt` 2024-01-01. -/
def exSortJan : Lead := [("foundAt", Val.str "2024-01-01")]

/-- Lead with `foundAt` 2024-03-01. -/
def exSortMar : Lead := [("foundAt", Val.str "2024-03-01")]

/-- Lead with `foundAt` 2024-02-01. -/
def exSortFeb : Lead := [("foundAt", Val.str "2024-02-01")]

/-! ## Theorems -/

/-! ### Fuel monotonicity of the deindexer -/

theorem derefF_zero (data : List Val) (v : Val) : derefF data 0 v = none := rfl

theorem derefF_str (data : List Val) (n : Nat) (s : String) :
    derefF data (n + 1) (Val.str s) =
      (if isDigitString s then
        (if digitsToNat s < data.length then
          derefF data n (data.getD (digitsToNat s) Val.nullV)
        else some (Val.str s))
      else some (Val.str s)) := rfl

theorem derefF_obj (data : List Val) (n : Nat) (kvs : List (String × Val)) :
    derefF data (n + 1) (Val.obj kvs) =
      (optMapList (fun kv => (derefF data n kv.2).map fun w => (kv.1, w)) kvs).map Val.obj := rfl

theorem derefF_arr (data : List Val) (n : Nat) (vs : List Val) :
    derefF data (n + 1) (Val.arr vs) = (optMapList (derefF data n) vs).map Val.arr := rfl

theorem derefF_num (data : List Val) (n : Nat) (m : Int) :
    derefF data (n + 1) (Val.num m) = some (Val.num m) := rfl

theorem derefF_bool (data : List Val) (n : Nat) (b : Bool) :
    derefF data (n + 1) (Val.boolV b) = some (Val.boolV b) := rfl

theorem derefF_null (data : List Val) (n : Nat) :
    derefF data (n + 1) Val.nullV = some Val.nullV := rfl

theorem optMapList_mono {f g : α → Option β} (l : List α)
    (h : ∀ a ∈ l, ∀ b, f a = some b → g a = some b) :
    ∀ bs, optMapList f l = some bs → optMapList g l = some bs := by
  induction l with
  | nil => intro bs hbs; simpa [optMapList] using hbs
  | cons a as ih =>
    intro bs hbs
    simp only [optMapList] at hbs ⊢
    cases hfa : f a with
    | none => rw [hfa] at hbs; exact absurd hbs (by simp)
    | some b =>
      rw [hfa] at hbs
      cases hrest : optMapList f as with
      | none => rw [hrest] at hbs; exact absurd hbs (by simp)
      | some bs' =>
        rw [hrest] at hbs
        rw [h a (by simp) b hfa,
          ih (fun x hx => h x (by simp [hx]) ) bs' hrest]
        exact hbs

theorem derefF_mono (data : List Val) :
    ∀ n v r, derefF data n v = some r → derefF data (n + 1) v = some r := by
  intro n
  induction n with
  | zero => intro v r h; rw [derefF_zero] at h; exact absurd h (by simp)
  | succ n ih =>
    intro v r h
    match v with
    | Val.str s =>
      by_cases hd : isDigitString s = true
      · by_cases hlt : digitsToNat s < data.length
        · rw [derefF_str, if_pos hd, if_pos hlt] at h ⊢
          exact ih _ _ h
        · rw [derefF_str, if_pos hd, if_neg hlt] at h ⊢
          exact h
      · rw [derefF_str, if_neg hd] at h ⊢
        exact h
    | Val.num m => rw [derefF_num] at h ⊢; exact h
    | Val.boolV b => rw [derefF_bool] at h ⊢; exact h
    | Val.nullV => rw [derefF_null] at h ⊢; exact h
    | Val.obj kvs =>
      rw [derefF_obj] at h ⊢
      rcases Option.map_eq_some'.mp h with ⟨l, hl, hr⟩
      rw [optMapList_mono kvs
        (fun kv _ b hb => by
          rcases Option.map_eq_some'.mp hb with ⟨w, hw, hbw⟩
          exact Option.map_eq_some'.mpr ⟨w, ih _ _ hw, hbw⟩) l hl]
      simpa using hr
    | Val.arr vs =>
      rw [derefF_arr] at h ⊢
      rcases Option.map_eq_some'.mp h with ⟨l, hl, hr⟩
      rw [optMapList_mono vs (fun v _ b hb => ih _ _ hb) l hl]
      simpa using hr

theorem derefF_mono_le (data : List Val) {m n : Nat} (h : m ≤ n) :
    ∀ v r, derefF data m v = some r → derefF data n v = some r := by
  induction h with
  | refl => exact fun _ _ hh => hh
  | step _ ih => exact fun v r hh => derefF_mono data _ v r (ih v r hh)

/-- C9: for every table `T` and digit string `s` whose numeric value is in
bounds of `T`, dereferencing the string and dereferencing the table entry it
points to converge to exactly the same results: `deref(s, T) = deref(T[i],
T)` as partial functions (the fuel-indexed embedding converges to `r` on one
side iff it does on the other). -/
theorem deref_index_eq (T : List Val) (s : String) (h₁ : isDigitString s = true)
    (h₂ : digitsToNat s < T.length) (r : Val) :
    (∃ n, derefF T n (Val.str s) = some r) ↔
      (∃ n, derefF T n (T.getD (digitsToNat s) Val.nullV) = some r) := by
  constructor
  · rintro ⟨n, hn⟩
    match n with
    | 0 => rw [derefF_zero] at hn; exact absurd hn (by simp)
    | m + 1 =>
      rw [derefF_str, if_pos h₁, if_pos h₂] at hn
      exact ⟨m, hn⟩
  · rintro ⟨n, hn⟩
    exact ⟨n + 1, by rw [derefF_str, if_pos h₁, if_pos h₂]; exact hn⟩

/-- Witness for C9 at the one-entry table `[5]` and index string `"0"`. -/
theorem deref_index_eq_probe :
    (∃ n, derefF [Val.num 5] n (Val.str "0") = some (Val.num 5)) ↔
      (∃ n, derefF [Val.num 5] n (Val.num 5) = some (Val.num 5)) :=
  deref_index_eq [Val.num 5] "0" (by decide) (by decide) (Val.num 5)

/-! ### Termination of the deindexer on acyclic tables -/

theorem listTermObj (data : List Val) (kvs : List (String × Val))
    (h : ∀ kv ∈ kvs, Terminates data kv.2) :
    ∃ n l, optMapList (fun kv => (derefF data n kv.2).map fun w => (kv.1, w)) kvs = some l := by
  induction kvs with
  | nil => exact ⟨0, [], rfl⟩
  | cons kv rest ih =>
    obtain ⟨n1, r1, h1⟩ := h kv (by simp)
    obtain ⟨n2, l2, h2⟩ := ih fun x hx => h x (by simp [hx])
    refine ⟨max n1 n2, (kv.1, r1) :: l2, ?_⟩
    have e1 : derefF data (max n1 n2) kv.2 = some r1 :=
      derefF_mono_le data (Nat.le_max_left n1 n2) _ _ h1
    have e2 : optMapList (fun x => (derefF data (max n1 n2) x.2).map fun w => (x.1, w))
        rest = some l2 :=
      optMapList_mono rest
        (fun a _ b hb => by
          rcases Option.map_eq_some'.mp hb with ⟨w, hw, hbw⟩
          exact Option.map_eq_some'.mpr
            ⟨w, derefF_mono_le data (Nat.le_max_right n1 n2) _ _ hw, hbw⟩) l2 h2
    simp [optMapList, e1, e2]

theorem listTermArr (data : List Val) (vs : List Val)
    (h : ∀ v ∈ vs, Terminates data v) :
    ∃ n l, optMapList (derefF data n) vs = some l := by
  induction vs with
  | nil => exact ⟨0, [], rfl⟩
  | cons v rest ih =>
    obtain ⟨n1, r1, h1⟩ := h v (by simp)
    obtain ⟨n2, l2, h2⟩ := ih fun x hx => h x (by simp [hx])
    refine ⟨max n1 n2, r1 :: l2, ?_⟩
    have e1 : derefF data (max n1 n2) v = some r1 :=
      derefF_mono_le data (Nat.le_max_left n1 n2) _ _ h1
    have e2 : optMapList (derefF data (max n1 n2)) rest = some l2 :=
      optMapList_mono rest
        (fun a _ b hb => derefF_mono_le data (Nat.le_max_right n1 n2) _ _ hb) l2 h2
    simp [optMapList, e1, e2]

/-- Structural half of the termination argument: a value whose in-bounds
references all lead to terminating table entries itself terminates. -/
theorem terminates_of_refs (data : List Val) :
    ∀ N v, sizeOf v ≤ N →
      (∀ j, j < data.length → RefIn v j → Terminates data (data.getD j Val.nullV)) →
      Terminates data v := by
  intro N
  induction N with
  | zero =>
    intro v hv _
    exfalso
    cases v <;> simp at hv
  | succ N ih =>
    intro v hv href
    match v with
    | Val.str s =>
      by_cases hd : isDigitString s = true
      · by_cases hlt : digitsToNat s < data.length
        · obtain ⟨n, r, hn⟩ := href (digitsToNat s) hlt (RefIn.strRef s hd)
          exact ⟨n + 1, r, by rw [derefF_str, if_pos hd, if_pos hlt]; exact hn⟩
        · exact ⟨1, Val.str s, by rw [derefF_str, if_pos hd, if_neg hlt]⟩
      · exact ⟨1, Val.str s, by rw [derefF_str, if_neg hd]⟩
    | Val.num m => exact ⟨1, Val.num m, derefF_num data 0 m⟩
    | Val.boolV b => exact ⟨1, Val.boolV b, derefF_bool data 0 b⟩
    | Val.nullV => exact ⟨1, Val.nullV, derefF_null data 0⟩
    | Val.obj kvs =>
      have hterm : ∀ kv ∈ kvs, Terminates data kv.2 := by
        rintro ⟨k, w⟩ hkv
        apply ih w
        · have hlt := List.sizeOf_lt_of_mem hkv
          simp at hv hlt
          omega
        · intro j hj hrefj
          exact href j hj (RefIn.objRef k w kvs j hkv hrefj)
      obtain ⟨n, l, hl⟩ := listTermObj data kvs hterm
      exact ⟨n + 1, Val.obj l, by rw [derefF_obj, hl]; rfl⟩
    | Val.arr vs =>
      have hterm : ∀ w ∈ vs, Terminates data w := by
        intro w hw
        apply ih w
        · have hlt := List.sizeOf_lt_of_mem hw
          simp at hv hlt
          omega
        · intro j hj hrefj
          exact href j hj (RefIn.arrRef w vs j hw hrefj)
      obtain ⟨n, l, hl⟩ := listTermArr data vs hterm
      exact ⟨n + 1, Val.arr l, by rw [derefF_arr, hl]; rfl⟩

/-- C10: under the acyclicity precondition — well-foundedness of the table's
digit-string reference relation, i.e. no chain of references from any entry
reaches itself — the deindexer terminates on every input value: some fuel
makes the fuel-indexed embedding of `deref` return a result, so `deref` is a
total function on acyclic tables. -/
theorem deref_total_of_acyclic (data : List Val)
    (hacyc : WellFounded (refStep data)) (v : Val) :
    ∃ n r, derefF data n v = some r := by
  have hentry : ∀ i, i < data.length → Terminates data (data.getD i Val.nullV) := by
    intro i
    refine hacyc.induction
      (C := fun i => i < data.length → Terminates data (data.getD i Val.nullV)) i ?_
    intro x ihw hx
    refine terminates_of_refs data (sizeOf (data.getD x Val.nullV)) _ le_rfl ?_
    intro j hj hrefj
    exact ihw j ⟨hx, hj, hrefj⟩ hj
  refine terminates_of_refs data (sizeOf v) v le_rfl ?_
  intro j hj _
  exact hentry j hj

/-- Witness for C10: the empty table is acyclic (its reference relation is
empty), and dereferencing the out-of-bounds index string `"7"` against it
terminates. -/
theorem deref_total_of_acyclic_probe :
    ∃ n r, derefF [] n (Val.str "7") = some r :=
  deref_total_of_acyclic []
    (WellFounded.intro fun i => Acc.intro i fun _ hj => absurd hj.1 (Nat.not_lt_zero i))
    (Val.str "7")

/-! ### Shape dispatch: the two locator branches -/

/-- C1 counterexample: on the payload `exPayloadBoth`, which satisfies both
shape conditions (a `data` array and a `resultData.runData` mapping), Branch
B alone would produce the lead `exLeadB`, but the script's result is exactly
the Branch A lead and does not contain `exLeadB` — the branches' results
are not concatenated. -/
theorem branch_concat_refuted :
    (branchBLeads exPayloadBoth "2024-01-01" (Val.str "e1")).1 = [exLeadB] ∧
    (processPayload 100 exPayloadBoth "2024-01-01" (Val.str "e1")).1 = [exLeadA] ∧
    exLeadB ∉ (processPayload 100 exPayloadBoth "2024-01-01" (Val.str "e1")).1 := by
  refine ⟨by decide, by decide, by decide⟩

/-- C1 (amended): the two branches are mutually exclusive.  For a dict
payload, if a `data` field is present the result is exactly Branch A's on
that field (Branch B never runs, even when `resultData.runData` is also
present); Branch B runs only when `data` is absent and `resultData` is
present, and then Branch A never runs. -/
theorem branch_dispatch_exclusive (fuel : Nat) (kvs : List (String × Val))
    (startedAt : String) (execId : Val) :
    (∀ da, List.lookup "data" kvs = some da →
      processPayload fuel (Val.obj kvs) startedAt execId =
        runBranchA fuel da startedAt execId) ∧
    (List.lookup "data" kvs = none →
      ∀ result, List.lookup "resultData" kvs = some result →
        processPayload fuel (Val.obj kvs) startedAt execId =
          runResultData startedAt execId result) := by
  constructor
  · intro da hda
    simp [processPayload, hda]
  · intro hnone result hres
    simp [processPayload, hnone, hres]

/-- Witness for C1's amended dispatch at the payload `exPayloadBoth`. -/
theorem branch_dispatch_exclusive_probe :
    processPayload 100 exPayloadBoth "2024-01-01" (Val.str "e1") =
      runBranchA 100 (Val.arr [exItemA]) "2024-01-01" (Val.str "e1") :=
  (branch_dispatch_exclusive 100
      [("data", Val.arr [exItemA]),
        ("resultData", Val.obj [("runData", Val.obj [("Node", Val.arr [exRunGood])])])]
      "2024-01-01" (Val.str "e1")).1 (Val.arr [exItemA]) (by decide)

/-! ### The text cleaner on the spec's example -/

/-- C2 counterexample: cleaning the exact example string does not produce
`"Hello welcome"` — the cleaner removes only the literal boilerplate
`submitted by`, so `bob` survives. -/
theorem clean_example_refuted :
    clean_html_content "<p>Hello &amp; welcome [link] submitted by bob</p>" ≠
      "Hello welcome" := by
  decide

/-- C2 (amended): cleaning the example string yields `"Hello welcome bob"`
(tags, entity and boilerplate removed, whitespace collapsed, but the author
name after `submitted by` kept). -/
theorem clean_example_actual :
    clean_html_content "<p>Hello &amp; welcome [link] submitted by bob</p>" =
      "Hello welcome bob" := by
  decide

/-! ### Connection lifecycle and the error envelope -/

/-- C3 (evidence of the code bug): when `connect` succeeds and the query then
raises, the orchestrator returns the error envelope having opened one
connection and closed none — the handle leaks on the error path.  (On the
success path the connection is closed: second conjunct.) -/
theorem connection_leak_on_query_failure :
    getLeadsTraced ⟨Except.ok (), Except.error "query failed"⟩ 10 50 0 =
      (Envelope.err "query failed" [] 0, 1, 0) ∧
    getLeadsTraced ⟨Except.ok (), Except.ok []⟩ 10 50 0 =
      (Envelope.ok [] 0 50 0, 1, 1) := by
  exact ⟨rfl, rfl⟩

/-- C4: a `connect` failure or a query failure (and nothing else) makes
`get_leads` return exactly the envelope `{'error': msg, 'leads': [],
'total': 0}` carrying the exception message; every error envelope it ever
returns has empty leads, zero total, and stems from one of those two
failures. -/
theorem error_envelope_iff_store_failure (db : StoreRun) (fuel limitN offsetN : Nat) :
    (∀ m, db.connectRes = Except.error m →
      get_leads db fuel limitN offsetN = Envelope.err m [] 0) ∧
    (∀ m u, db.connectRes = Except.ok u → db.queryRes = Except.error m →
      get_leads db fuel limitN offsetN = Envelope.err m [] 0) ∧
    (∀ m ls t, get_leads db fuel limitN offsetN = Envelope.err m ls t →
      ls = [] ∧ t = 0 ∧
        (db.connectRes = Except.error m ∨ db.queryRes = Except.error m)) := by
  rcases db with ⟨hc, hq⟩
  refine ⟨?_, ?_, ?_⟩
  · intro m hm
    simp only at hm
    simp [get_leads, getLeadsTraced, hm]
  · intro m u h1 h2
    simp only at h1 h2
    simp [get_leads, getLeadsTraced, h1, h2]
  · intro m ls t h
    cases hc with
    | error m0 =>
      simp [get_leads, getLeadsTraced] at h
      obtain ⟨h1, h2, h3⟩ := h
      subst h1; subst h2; subst h3
      exact ⟨rfl, rfl, Or.inl rfl⟩
    | ok u =>
      cases hq with
      | error m0 =>
        simp [get_leads, getLeadsTraced] at h
        obtain ⟨h1, h2, h3⟩ := h
        subst h1; subst h2; subst h3
        exact ⟨rfl, rfl, Or.inr rfl⟩
      | ok rows =>
        simp [get_leads, getLeadsTraced, finishEnvelope] at h

/-- Witness for C4: a failed `connect` with message `no db`. -/
theorem error_envelope_iff_store_failure_probe :
    get_leads ⟨Except.error "no db", Except.ok []⟩ 7 50 0 = Envelope.err "no db" [] 0 :=
  (error_envelope_iff_store_failure ⟨Except.error "no db", Except.ok []⟩ 7 50 0).1 "no db" rfl

/-! ### Per-row failure isolation -/

/-- C5 counterexample: the row `exRowPartial` raises during its run-data
walk (second component `true`), yet it contributes the lead appended before
the exception — its contribution to the accumulated list is not zero. -/
theorem partial_leads_refuted :
    processRow 100 exRowPartial = ([exLeadPartial], true) ∧
    allLeads 100 [exRowPartial] = [exLeadPartial] := by
  exact ⟨by decide, by decide⟩

/-- C5 (amended): a row whose processing raises contributes exactly the
leads it appended before the exception — zero when the failure is in the
decompress/decode/parse chain, which precedes any append — and the
processing and contributions of all other rows are unchanged: the
accumulated list splits around the failing row's own contribution. -/
theorem row_failure_isolation (fuel : Nat) (pre post : List Row) (bad : Row)
    (hfail : (processRow fuel bad).2 = true) :
    allLeads fuel (pre ++ bad :: post) =
      allLeads fuel pre ++ (processRow fuel bad).1 ++ allLeads fuel post ∧
    (bad.payload = none → (processRow fuel bad).1 = []) := by
  constructor
  · induction pre with
    | nil => simp [allLeads]
    | cons r rs ih => simp [allLeads, ih]
  · intro hp
    simp [processRow, hp]

/-- Witness for C5's amended isolation at the one-row run `[exRowPartial]`. -/
theorem row_failure_isolation_probe :
    allLeads 100 ([] ++ exRowPartial :: []) =
      allLeads 100 [] ++ (processRow 100 exRowPartial).1 ++ allLeads 100 [] :=
  (row_failure_isolation 100 [] [] exRowPartial (by decide)).1

/-! ### Deduplication -/

theorem dedupGo_sublist (seen : List Val) (l : List Lead) :
    (dedupGo seen l).Sublist l := by
  induction l generalizing seen with
  | nil => simp [dedupGo]
  | cons lead rest ih =>
    by_cases hg : (truthy (linkOf lead) && !seen.contains (linkOf lead)) = true
    · rw [dedupGo, if_pos hg]
      exact List.Sublist.cons₂ lead (ih (linkOf lead :: seen))
    · rw [dedupGo, if_neg hg]
      exact List.Sublist.cons lead (ih seen)

theorem dedupGo_truthy (seen : List Val) (l : List Lead) :
    ∀ x ∈ dedupGo seen l, truthy (linkOf x) = true := by
  induction l generalizing seen with
  | nil => simp [dedupGo]
  | cons lead rest ih =>
    intro x hx
    by_cases hg : (truthy (linkOf lead) && !seen.contains (linkOf lead)) = true
    · rw [dedupGo, if_pos hg] at hx
      rcases List.mem_cons.mp hx with hx | hx
      · subst hx; exact (Bool.and_eq_true_iff.mp hg).1
      · exact ih _ x hx
    · rw [dedupGo, if_neg hg] at hx
      exact ih _ x hx

theorem dedupGo_not_seen (seen : List Val) (l : List Lead) :
    ∀ x ∈ dedupGo seen l, seen.contains (linkOf x) = false := by
  induction l generalizing seen with
  | nil => simp [dedupGo]
  | cons lead rest ih =>
    intro x hx
    by_cases hg : (truthy (linkOf lead) && !seen.contains (linkOf lead)) = true
    · rw [dedupGo, if_pos hg] at hx
      rcases List.mem_cons.mp hx with hx | hx
      · subst hx
        have := (Bool.and_eq_true_iff.mp hg).2
        simpa using this
      · have := ih (linkOf lead :: seen) x hx
        simp [List.contains_cons] at this
        simpa using this.2
    · rw [dedupGo, if_neg hg] at hx
      exact ih seen x hx

theorem dedupGo_pairwise (seen : List Val) (l : List Lead) :
    (dedupGo seen l).Pairwise (fun a b => linkOf a ≠ linkOf b) := by
  induction l generalizing seen with
  | nil => simp [dedupGo]
  | cons lead rest ih =>
    by_cases hg : (truthy (linkOf lead) && !seen.contains (linkOf lead)) = true
    · rw [dedupGo, if_pos hg]
      refine List.Pairwise.cons ?_ (ih (linkOf lead :: seen))
      intro b hb hlb
      have := dedupGo_not_seen (linkOf lead :: seen) rest b hb
      rw [← hlb] at this
      simp [List.contains_cons] at this
    · rw [dedupGo, if_neg hg]
      exact ih seen

theorem dedup_guard (seen : List Val) (lead : Lead) :
    (truthy (linkOf lead) && !seen.contains (linkOf lead)) = true ↔
      truthy (linkOf lead) = true ∧ linkOf lead ∉ seen := by
  simp

theorem dedupGo_first (x : Lead) (l₂ : List Lead) :
    ∀ (l₁ : List Lead) (seen : List Val), truthy (linkOf x) = true →
      linkOf x ∉ seen →
      (∀ y ∈ l₁, linkOf y ≠ linkOf x) →
      x ∈ dedupGo seen (l₁ ++ x :: l₂) := by
  intro l₁
  induction l₁ with
  | nil =>
    intro seen hx hseen _
    have hg : (truthy (linkOf x) && !seen.contains (linkOf x)) = true :=
      (dedup_guard seen x).mpr ⟨hx, hseen⟩
    rw [List.nil_append, dedupGo, if_pos hg]
    exact List.mem_cons_self x _
  | cons y ys ih =>
    intro seen hx hseen hne
    rw [List.cons_append]
    by_cases hg : (truthy (linkOf y) && !seen.contains (linkOf y)) = true
    · rw [dedupGo, if_pos hg]
      refine List.mem_cons_of_mem y ?_
      refine ih (linkOf y :: seen) hx ?_ (fun z hz => hne z (by simp [hz]))
      intro hmem
      rcases List.mem_cons.mp hmem with h | h
      · exact hne y (by simp) h.symm
      · exact hseen h
    · rw [dedupGo, if_neg hg]
      exact ih seen hx hseen (fun z hz => hne z (by simp [hz]))

theorem dedupGo_complete (l : List Lead) :
    ∀ (seen : List Val) (x : Lead), x ∈ l → truthy (linkOf x) = true →
      linkOf x ∉ seen →
      ∃ y ∈ dedupGo seen l, linkOf y = linkOf x := by
  induction l with
  | nil => intro seen x hx; simp at hx
  | cons z rest ih =>
    intro seen x hx htr hseen
    by_cases hg : (truthy (linkOf z) && !seen.contains (linkOf z)) = true
    · rw [dedupGo, if_pos hg]
      by_cases hlx : linkOf z = linkOf x
      · exact ⟨z, by simp, hlx⟩
      · rcases List.mem_cons.mp hx with hx | hx
        · subst hx
          exact absurd rfl hlx
        · have hseen' : linkOf x ∉ (linkOf z :: seen) := by
            intro hmem
            rcases List.mem_cons.mp hmem with h | h
            · exact hlx h.symm
            · exact hseen h
          obtain ⟨y, hy, hly⟩ := ih (linkOf z :: seen) x hx htr hseen'
          exact ⟨y, by simp [hy], hly⟩
    · rw [dedupGo, if_neg hg]
      rcases List.mem_cons.mp hx with hx | hx
      · subst hx
        exact absurd ((dedup_guard seen x).mpr ⟨htr, hseen⟩) hg
      · exact ih seen x hx htr hseen

/-- C6: deduplication operates on the concatenated list in its original
pre-sort order.  The result is a sublist (order preserved) of truthy-link
leads with pairwise distinct links; the first-encountered lead of each
truthy link is kept — even when later duplicates differ in other fields —
and every truthy link of the input is represented; leads with missing,
empty or otherwise falsy links are dropped entirely. -/
theorem dedup_first_seen_spec (l : List Lead) :
    (dedupLeads l).Sublist l ∧
    (∀ x ∈ dedupLeads l, truthy (linkOf x) = true) ∧
    (dedupLeads l).Pairwise (fun a b => linkOf a ≠ linkOf b) ∧
    (∀ l₁ x l₂, l = l₁ ++ x :: l₂ → truthy (linkOf x) = true →
      (∀ y ∈ l₁, linkOf y ≠ linkOf x) → x ∈ dedupLeads l) ∧
    (∀ x ∈ l, truthy (linkOf x) = true → ∃ y ∈ dedupLeads l, linkOf y = linkOf x) := by
  refine ⟨dedupGo_sublist [] l, dedupGo_truthy [] l, dedupGo_pairwise [] l, ?_, ?_⟩
  · intro l₁ x l₂ hdecomp htr hne
    rw [hdecomp]
    exact dedupGo_first x l₂ l₁ [] htr (by simp) hne
  · intro x hx htr
    exact dedupGo_complete l [] x hx htr (by simp)

/-- Witness for C6: of two leads sharing link `u` with different `foundAt`
values, the first-encountered one is kept. -/
theorem dedup_first_seen_spec_probe :
    exDupFirst ∈ dedupLeads [exDupFirst, exDupLater, exNoLink] :=
  (dedup_first_seen_spec [exDupFirst, exDupLater, exNoLink]).2.2.2.1 [] exDupFirst
    [exDupLater, exNoLink] rfl (by decide) (by simp)

/-! ### Pagination -/

/-- C7: for a deduplicated, sorted collection of size `N` and non-negative
`limit`/`offset` (encoded as naturals), the envelope's leads list has
exactly `min(limit, max(0, N - offset))` elements (`Nat` subtraction is the
truncated `max(0, ·)`), the `total` field equals `N` regardless of both, and
an out-of-range offset yields an empty list rather than an error. -/
theorem pagination_spec (l : List Lead) (limitN offsetN : Nat) :
    (envLeads (finishEnvelope l limitN offsetN)).length =
      min limitN (l.length - offsetN) ∧
    envTotal (finishEnvelope l limitN offsetN) = l.length ∧
    (l.length ≤ offsetN → envLeads (finishEnvelope l limitN offsetN) = []) := by
  refine ⟨?_, rfl, ?_⟩
  · simp [finishEnvelope, envLeads]
  · intro h
    simp [finishEnvelope, envLeads, List.drop_eq_nil_of_le h]

/-- Witness for C7's out-of-range clause: offset 3 into a one-element
collection yields an empty page. -/
theorem pagination_spec_probe :
    envLeads (finishEnvelope [exSortJan] 50 3) = [] :=
  (pagination_spec [exSortJan] 50 3).2.2 (by decide)

/-! ### Sorting -/

theorem charsLe_total : ∀ as bs : List Char, charsLe as bs = true ∨ charsLe bs as = true := by
  intro as
  induction as with
  | nil => intro bs; exact Or.inl rfl
  | cons a as ih =>
    intro bs
    cases bs with
    | nil => exact Or.inr rfl
    | cons b bs =>
      by_cases h1 : a.toNat < b.toNat
      · exact Or.inl (by rw [charsLe, if_pos h1])
      · by_cases h2 : b.toNat < a.toNat
        · exact Or.inr (by rw [charsLe, if_pos h2])
        · rcases ih bs with h | h
          · exact Or.inl (by rw [charsLe, if_neg h1, if_neg h2]; exact h)
          · exact Or.inr (by rw [charsLe, if_neg h2, if_neg h1]; exact h)

theorem charsLe_trans : ∀ as bs cs : List Char,
    charsLe as bs = true → charsLe bs cs = true → charsLe as cs = true := by
  intro as
  induction as with
  | nil => intro bs cs _ _; rfl
  | cons a as ih =>
    intro bs cs h1 h2
    cases bs with
    | nil => rw [charsLe] at h1; exact absurd h1 (by simp)
    | cons b bs =>
      cases cs with
      | nil => rw [charsLe] at h2; exact absurd h2 (by simp)
      | cons c cs =>
        rw [charsLe] at h1 h2 ⊢
        by_cases hab : a.toNat < b.toNat
        · by_cases hbc : b.toNat < c.toNat
          · rw [if_pos (by omega : a.toNat < c.toNat)]
          · rw [if_neg hbc] at h2
            by_cases hcb : c.toNat < b.toNat
            · rw [if_pos hcb] at h2; exact absurd h2 (by simp)
            · rw [if_pos (by omega : a.toNat < c.toNat)]
        · rw [if_neg hab] at h1
          by_cases hba : b.toNat < a.toNat
          · rw [if_pos hba] at h1; exact absurd h1 (by simp)
          · rw [if_neg hba] at h1
            by_cases hbc : b.toNat < c.toNat
            · rw [if_pos (by omega : a.toNat < c.toNat)]
            · rw [if_neg hbc] at h2
              by_cases hcb : c.toNat < b.toNat
              · rw [if_pos hcb] at h2; exact absurd h2 (by simp)
              · rw [if_neg hcb] at h2
                rw [if_neg (by omega : ¬a.toNat < c.toNat),
                  if_neg (by omega : ¬c.toNat < a.toNat)]
                exact ih bs cs h1 h2

/-- C8: before pagination the deduplicated collection is sorted by the
`foundAt` key — the string value, with a missing (or non-string) `foundAt`
read as the empty string, hence placed last — in descending code-point
lexicographic order: the result is a permutation of the input that is
pairwise descending in the key, and on the three example timestamps the
returned order is March, February, January. -/
theorem sort_desc_foundAt_spec :
    (∀ l : List Lead, (sortLeads l).Perm l ∧
      (sortLeads l).Pairwise (fun a b => strLe (foundAtKey b) (foundAtKey a) = true)) ∧
    sortLeads [exSortJan, exSortMar, exSortFeb] = [exSortMar, exSortFeb, exSortJan] := by
  constructor
  · intro l
    have htot : IsTotal Lead (fun a b : Lead => strLe (foundAtKey b) (foundAtKey a) = true) :=
      ⟨fun a b => charsLe_total (foundAtKey b).toList (foundAtKey a).toList⟩
    have htrans : IsTrans Lead
        (fun a b : Lead => strLe (foundAtKey b) (foundAtKey a) = true) :=
      ⟨fun a b c hab hbc =>
        charsLe_trans (foundAtKey c).toList (foundAtKey b).toList (foundAtKey a).toList
          hbc hab⟩
    exact ⟨List.perm_insertionSort _ l, List.sorted_insertionSort _ l⟩
  · decide
